import Mathlib

/-
Verification of the extension-lifecycle manager (`core/loader.py`,
class `CogsLoader`) of the Suginami bot.

Modelling conventions:
* A filesystem path is a list of name components; an absolute path
  starts with the empty component "" (mirroring the leading path
  separator of a POSIX absolute path).
* The directory tree under the cogs root is a finite rose tree
  (`FSDir` / `FSSub`); `os.walk` with the source's in-place filtering
  of `dirs` is embedded as `walkD` / `walkS` (files of the current
  directory first, then the subdirectories in order).
* The platform client library (the Session Host of the spec) is not
  part of this repository; its three primitives are modelled from the
  spec's interface contract as `activate` / `deactivate` / `swap`
  over an extension table (a list of identifiers) and an environment
  `Env` describing each module's behaviour.
* Every loader operation returns its boolean result, the successor
  state and a trace of events (host calls and log records), so that
  "never raises", "logged diagnostic" and "no underlying calls made"
  are expressible.
* The event-loop execution of `asyncio.gather` over the dispatch list
  is embedded as the sequential fold `runBatch` in dispatch order;
  `gather` returns its results in argument (dispatch) order, which is
  what the aggregation loop of the source consumes.
-/

namespace Suginami

/-- Python `str.startswith`, over the character sequences. -/
def strStartsWith (s pat : String) : Bool :=
  pat.toList.isPrefixOf s.toList

/-- Python `str.endswith`, over the character sequences. -/
def strEndsWith (s pat : String) : Bool :=
  pat.toList.isSuffixOf s.toList

/-- A candidate cog file name: recognized source suffix, not starting
with the reserved marker, as in `_get_cog_files`. -/
def goodName (nm : String) : Bool :=
  strEndsWith nm ".py" && !strStartsWith nm "_"

mutual

/-- A directory of the cogs tree: its plain files and its subdirectories. -/
inductive FSDir : Type where
  | mk (files : List String) (subdirs : FSSub)

/-- A finite list of named subdirectories. -/
inductive FSSub : Type where
  | nil
  | cons (nm : String) (d : FSDir) (rest : FSSub)

end

mutual

/-- Embedding of `os.walk` over a directory as in `_get_cog_files`: the matching
files of the current directory (in order), then the walks of the
non-excluded subdirectories (in order).  Paths are returned relative
to the walked directory. -/
def walkD : FSDir → List (List String)
  | .mk files subdirs =>
      (files.filter goodName).map (fun nm => [nm]) ++ walkS subdirs

/-- Walk of a subdirectory list: directories whose name starts with
the reserved marker are pruned (the `dirs[:] = ...` filtering). -/
def walkS : FSSub → List (List String)
  | .nil => []
  | .cons nm d rest =>
      (if strStartsWith nm "_" then [] else (walkD d).map (fun rel => nm :: rel))
        ++ walkS rest

end

mutual

/-- All file paths in a directory tree, unfiltered, in the same
traversal order as `walkD`. -/
def allFilesD : FSDir → List (List String)
  | .mk files subdirs => files.map (fun nm => [nm]) ++ allFilesS subdirs

/-- All file paths under a subdirectory list, unfiltered. -/
def allFilesS : FSSub → List (List String)
  | .nil => []
  | .cons nm d rest => (allFilesD d).map (fun rel => nm :: rel) ++ allFilesS rest

end

/-- A relative file path survives discovery iff no intermediate
directory component starts with the reserved marker and the final
component is a recognized non-marker source file. -/
def goodRel : List String → Bool
  | [] => false
  | [nm] => goodName nm
  | c :: rest => (!strStartsWith c "_") && goodRel rest

/-- Events observable from a loader operation: calls into the host's
activation subsystem, and log records. -/
inductive Event : Type where
  | hostLoad (id : String)
  | hostUnload (id : String)
  | hostReload (id : String)
  | logInfo (msg : String)
  | logWarning (msg : String)
  | logError (msg : String)
deriving DecidableEq, Repr

/-- Embedding of `_get_cog_files`: discovery over the (possibly missing) cogs root.
`cwd` is the working directory, `rootRel` the configured cogs
directory relative to it; results are resolved to absolute paths.
A missing root yields no files and a warning. -/
def get_cog_files (cwd rootRel : List String) (fs : Option FSDir) :
    List (List String) × List Event :=
  match fs with
  | none => ([], [Event.logWarning "Cogs directory does not exist."])
  | some d => ((walkD d).map (fun rel => cwd ++ rootRel ++ rel), [])

/-- Semantics of `pathlib` suffix stripping on a single name: drop the
final dot-suffix of the name when the last dot is neither the first
nor the last character; otherwise the name has no suffix and is kept
unchanged, as `with_suffix` with an empty argument does. -/
def stripSuffixName (nm : String) : String :=
  let cs := nm.toList
  match cs.reverse.findIdx? (fun c => c = '.') with
  | none => nm
  | some j =>
      let i := cs.length - 1 - j
      if 0 < i ∧ i < cs.length - 1 then String.mk (cs.take i) else nm

/-- Suffix stripping applied to a path: it rewrites the last component. -/
def withSuffixEmpty (p : List String) : List String :=
  match p.reverse with
  | [] => []
  | nm :: rest => ((stripSuffixName nm) :: rest).reverse

/-- Embedding of `_path_to_module`: relative to the working directory when
possible (`relative_to` raising `ValueError` otherwise, upon which
the path is used as-is), suffix stripped, components joined with the
dot delimiter (`str(...).replace(os.sep, '.')`). -/
def path_to_module (cwd : List String) (file_path : List String) : String :=
  let relative_path :=
    if cwd.isPrefixOf file_path then file_path.drop cwd.length else file_path
  String.intercalate "." (withSuffixEmpty relative_path)

/-- Modelled from the spec: the path-to-identifier mapping as §4.1
words it — take the path relative to the working directory, falling
back to the full path when the file lies outside it, strip the file
suffix, join the remaining components with the fixed delimiter. -/
def path_to_module_spec (cwd : List String) (p : List String) : String :=
  if cwd.isPrefixOf p then
    String.intercalate "." (withSuffixEmpty (p.drop cwd.length))
  else
    String.intercalate "." (withSuffixEmpty p)

/-- Behaviour of a module when the host tries to activate it while it
is not in the extension table. -/
inductive ModStatus : Type where
  | ok
  | notFound
  | noEntryPoint
  | broken
deriving DecidableEq, Repr

/-- Failure modes of activation (`ExtensionAlreadyLoaded`,
`ExtensionNotFound`, `NoEntryPointError`, any other exception). -/
inductive LoadErr : Type where
  | alreadyLoaded
  | notFound
  | noEntryPoint
  | other
deriving DecidableEq, Repr

/-- Failure modes of deactivation (`ExtensionNotLoaded`, other). -/
inductive UnloadErr : Type where
  | notLoaded
  | other
deriving DecidableEq, Repr

/-- Failure modes of the atomic swap (`ExtensionNotLoaded`, other). -/
inductive SwapErr : Type where
  | notLoaded
  | other
deriving DecidableEq, Repr

/-- Modelled from the spec: the Session Host's activation subsystem
(the external platform client library, §6).  `modStatus` says how an
identifier behaves when activated afresh; `unloadOk` / `reloadOk`
whether deactivation / swap of an active identifier completes without
an unexpected fault. -/
structure Env : Type where
  modStatus : String → ModStatus
  unloadOk : String → Bool
  reloadOk : String → Bool

/-- Modelled from the spec: `activate(id)` — rejects an identifier
already in the extension table, otherwise resolves and initializes
the module; on success the table gains the identifier. -/
def activate (env : Env) (exts : List String) (id : String) :
    Except LoadErr (List String) :=
  if id ∈ exts then .error .alreadyLoaded
  else
    match env.modStatus id with
    | .ok => .ok (exts ++ [id])
    | .notFound => .error .notFound
    | .noEntryPoint => .error .noEntryPoint
    | .broken => .error .other

/-- Modelled from the spec: `deactivate(id)` — fails on an inactive
identifier; on success the table loses the identifier; an unexpected
fault leaves the table unchanged. -/
def deactivate (env : Env) (exts : List String) (id : String) :
    Except UnloadErr (List String) :=
  if id ∈ exts then
    if env.unloadOk id then .ok (exts.erase id) else .error .other
  else .error .notLoaded

/-- Modelled from the spec: `swap(id)` — fails on an inactive
identifier; on success (and on a rolled-back fault) the table keeps
the identifier. -/
def swap (env : Env) (exts : List String) (id : String) :
    Except SwapErr (List String) :=
  if id ∈ exts then
    if env.reloadOk id then .ok exts else .error .other
  else .error .notLoaded

/-- The registry state: the host's extension table, and the
`loaded_cogs` list owned by the `CogsLoader`. -/
structure LoaderState : Type where
  botExts : List String
  loaded_cogs : List String
deriving DecidableEq, Repr

/-- Result of a single-item operation: the boolean outcome, the
successor state, and the observable events. -/
structure OpResult : Type where
  ok : Bool
  state : LoaderState
  trace : List Event
deriving DecidableEq, Repr

/-- Embedding of `CogsLoader.load_cog`: call `bot.load_extension`; on success
append to `loaded_cogs` and return `True`; each exception is caught,
logged and converted to `False`. -/
def load_cog (env : Env) (st : LoaderState) (cog_path : String) : OpResult :=
  match activate env st.botExts cog_path with
  | .ok exts2 =>
      { ok := true
        state := { botExts := exts2, loaded_cogs := st.loaded_cogs ++ [cog_path] }
        trace := [.hostLoad cog_path, .logInfo ("Cog loaded: " ++ cog_path)] }
  | .error .alreadyLoaded =>
      { ok := false, state := st
        trace := [.hostLoad cog_path,
                  .logWarning ("Cog " ++ cog_path ++ " already loaded")] }
  | .error .notFound =>
      { ok := false, state := st
        trace := [.hostLoad cog_path,
                  .logError ("Cog " ++ cog_path ++ " not found")] }
  | .error .noEntryPoint =>
      { ok := false, state := st
        trace := [.hostLoad cog_path,
                  .logError ("In " ++ cog_path ++ " missing setup function")] }
  | .error .other =>
      { ok := false, state := st
        trace := [.hostLoad cog_path,
                  .logError ("Error loading " ++ cog_path)] }

/-- Embedding of `CogsLoader.unload_cog`: call `bot.unload_extension`; on success
remove from `loaded_cogs` if present and return `True`; each
exception is caught, logged and converted to `False`. -/
def unload_cog (env : Env) (st : LoaderState) (cog_path : String) : OpResult :=
  match deactivate env st.botExts cog_path with
  | .ok exts2 =>
      { ok := true
        state := { botExts := exts2, loaded_cogs := st.loaded_cogs.erase cog_path }
        trace := [.hostUnload cog_path, .logInfo ("Cog unloaded: " ++ cog_path)] }
  | .error .notLoaded =>
      { ok := false, state := st
        trace := [.hostUnload cog_path,
                  .logWarning ("Cog " ++ cog_path ++ " not loaded")] }
  | .error .other =>
      { ok := false, state := st
        trace := [.hostUnload cog_path,
                  .logError ("Error unloading " ++ cog_path)] }

/-- Embedding of `CogsLoader.reload_cog`: call `bot.reload_extension`; on
`ExtensionNotLoaded` fall back to `load_cog`; any other exception is
caught, logged and converted to `False`. -/
def reload_cog (env : Env) (st : LoaderState) (cog_path : String) : OpResult :=
  match swap env st.botExts cog_path with
  | .ok exts2 =>
      { ok := true
        state := { botExts := exts2, loaded_cogs := st.loaded_cogs }
        trace := [.hostReload cog_path, .logInfo ("Cog reloaded: " ++ cog_path)] }
  | .error .notLoaded =>
      let r := load_cog env st cog_path
      { r with
        trace := [.hostReload cog_path,
                  .logInfo ("Cog " ++ cog_path ++ " not loaded, loading...")]
                 ++ r.trace }
  | .error .other =>
      { ok := false, state := st
        trace := [.hostReload cog_path,
                  .logError ("Error reloading " ++ cog_path)] }

/-- Embedding of `CogsLoader.get_loaded_cogs`: the value of the copy returned to
the caller. -/
def get_loaded_cogs (st : LoaderState) : List String :=
  st.loaded_cogs

/-- The aggregate record of a bulk operation (`results` dict). -/
structure BulkResult : Type where
  success : List String
  failed : List String
  total : Nat
deriving DecidableEq, Repr

/-- Result of a bulk operation together with the successor state and
the observable events. -/
structure BulkOpResult : Type where
  res : BulkResult
  state : LoaderState
  trace : List Event
deriving DecidableEq, Repr

/-- The event-loop execution of `asyncio.gather` over the dispatch
list: each per-item task yields its `(identifier, success)` pair, and
`gather` returns the pairs in dispatch order. -/
def runBatch (step : LoaderState → String → OpResult) (st : LoaderState) :
    List String → List (String × Bool) × LoaderState × List Event
  | [] => ([], st, [])
  | m :: ms =>
      let r := step st m
      let rest := runBatch step r.state ms
      ((m, r.ok) :: rest.1, rest.2.1, r.trace ++ rest.2.2)

/-- The result-processing loop: each settled pair is appended to the
`success` or the `failed` list, in the order `gather` returned it. -/
def categorize : List (String × Bool) → List String × List String
  | [] => ([], [])
  | (m, b) :: rest =>
      let c := categorize rest
      if b then (m :: c.1, c.2) else (c.1, m :: c.2)

/-- Embedding of `CogsLoader.load_all_cogs`: discover, set `total`, return early
when nothing was found, otherwise map paths to identifiers, load them
all (gather), and categorize the outcomes in dispatch order. -/
def load_all_cogs (env : Env) (cwd rootRel : List String)
    (fs : Option FSDir) (st : LoaderState) : BulkOpResult :=
  let d := get_cog_files cwd rootRel fs
  let cog_files := d.1
  let total := cog_files.length
  let head := d.2 ++ [Event.logInfo ("Found " ++ toString total ++ " cog files")]
  if cog_files.isEmpty then
    { res := { success := [], failed := [], total := total }
      state := st, trace := head }
  else
    let mods := cog_files.map (path_to_module cwd)
    let batch := runBatch (fun s m => load_cog env s m) st mods
    let c := categorize batch.1
    { res := { success := c.1, failed := c.2, total := total }
      state := batch.2.1
      trace := head ++ batch.2.2 ++ [Event.logInfo "Load finished"] }

/-- Embedding of `CogsLoader.reload_all_cogs`: snapshot (copy) `loaded_cogs`, set
`total`, return early when the snapshot is empty, otherwise reload
them all (gather) and categorize the outcomes in dispatch order. -/
def reload_all_cogs (env : Env) (st : LoaderState) : BulkOpResult :=
  let total := st.loaded_cogs.length
  let cogs_to_reload := st.loaded_cogs
  if cogs_to_reload.isEmpty then
    { res := { success := [], failed := [], total := total }
      state := st, trace := [Event.logInfo "No cogs to reload"] }
  else
    let batch := runBatch (fun s m => reload_cog env s m) st cogs_to_reload
    let c := categorize batch.1
    { res := { success := c.1, failed := c.2, total := total }
      state := batch.2.1
      trace := batch.2.2 ++ [Event.logInfo "Reload finished"] }

/-- An administrator-triggered registry operation. -/
inductive AdminOp : Type where
  | load (id : String)
  | unload (id : String)
  | reload (id : String)
  | loadAll
  | reloadAll
deriving DecidableEq, Repr

/-- The state effect of one registry operation. -/
def applyOp (env : Env) (cwd rootRel : List String) (fs : Option FSDir)
    (st : LoaderState) : AdminOp → LoaderState
  | .load id => (load_cog env st id).state
  | .unload id => (unload_cog env st id).state
  | .reload id => (reload_cog env st id).state
  | .loadAll => (load_all_cogs env cwd rootRel fs st).state
  | .reloadAll => (reload_all_cogs env st).state

/-- Run a sequence of registry operations from a state. -/
def runOps (env : Env) (cwd rootRel : List String) (fs : Option FSDir) :
    List AdminOp → LoaderState → LoaderState
  | [], st => st
  | op :: ops, st => runOps env cwd rootRel fs ops (applyOp env cwd rootRel fs st op)

/-- The registry at construction: empty `loaded_cogs`, and the host
session starts with an empty extension table. -/
def initState : LoaderState :=
  { botExts := [], loaded_cogs := [] }

/-- A trace contains a diagnostic log record (warning or error). -/
def hasDiagnostic (tr : List Event) : Bool :=
  tr.any fun e =>
    match e with
    | .logWarning _ => true
    | .logError _ => true
    | _ => false

/-- A trace contains a warning log record. -/
def hasWarningEvent (tr : List Event) : Bool :=
  tr.any fun e =>
    match e with
    | .logWarning _ => true
    | _ => false

/-- A trace contains no call into the host's activation subsystem. -/
def noHostCalls (tr : List Event) : Bool :=
  tr.all fun e =>
    match e with
    | .hostLoad _ => false
    | .hostUnload _ => false
    | .hostReload _ => false
    | _ => true

/-- The registry invariant: `loaded_cogs` is duplicate-free and every
recorded identifier is in the host's extension table. -/
def Inv (st : LoaderState) : Prop :=
  st.loaded_cogs.Nodup ∧ ∀ id ∈ st.loaded_cogs, id ∈ st.botExts

/-- A store of Python list objects: cell index = object identity.
Used to express that `get_loaded_cogs` hands out a fresh copy and not
the live internal list. -/
structure ListHeap : Type where
  cells : List (List String)
deriving DecidableEq, Repr

/-- Read a list object. -/
def readCell (h : ListHeap) (r : Nat) : List String :=
  h.cells.getD r []

/-- A caller mutating a list object in place. -/
def writeCell (h : ListHeap) (r : Nat) (v : List String) : ListHeap :=
  { cells := h.cells.set r v }

/-- Python `list.copy()`: allocate a fresh cell with the same contents. -/
def listCopy (h : ListHeap) (r : Nat) : ListHeap × Nat :=
  ({ cells := h.cells ++ [readCell h r] }, h.cells.length)

/-- Embedding of `CogsLoader.get_loaded_cogs` at the object level: return a copy
of the cell holding `self.loaded_cogs`. -/
def get_loaded_cogs_ref (h : ListHeap) (selfRef : Nat) : ListHeap × Nat :=
  listCopy h selfRef

/-- An environment in which every module activates cleanly. -/
def envAllOk : Env :=
  { modStatus := fun _ => .ok, unloadOk := fun _ => true, reloadOk := fun _ => true }

/-- An environment in which no module can be resolved. -/
def envMissing : Env :=
  { modStatus := fun _ => .notFound, unloadOk := fun _ => true, reloadOk := fun _ => true }

/-- An environment in which every activation-subsystem call faults
unexpectedly. -/
def envBroken : Env :=
  { modStatus := fun _ => .broken, unloadOk := fun _ => false, reloadOk := fun _ => false }

/-- A sample absolute working directory. -/
def cwd0 : List String := ["", "home", "bot"]

/-- The configured cogs directory, relative to the working directory. -/
def rootRel0 : List String := ["cogs"]

/-- A cogs tree holding the file `a.b.py` next to the directory `a`
containing `b.py`: two distinct files whose identifiers collide. -/
def fsColl : FSDir := .mk ["a.b.py"] (.cons "a" (.mk ["b.py"] .nil) .nil)

/-- A registry state with one active, recorded extension. -/
def stOne : LoaderState := { botExts := ["cogs.x"], loaded_cogs := ["cogs.x"] }

/-- A flat cogs tree with two files whose identifiers are distinct. -/
def fsTwo : FSDir := .mk ["a.py", "b.py"] .nil

theorem goodRel_cons_of_ne_nil (c : String) (rel : List String) (h : rel ≠ []) :
    goodRel (c :: rel) = (!strStartsWith c "_" && goodRel rel) := by
  cases rel with
  | nil => exact absurd rfl h
  | cons x xs => rfl

theorem goodRel_singleton (nm : String) : goodRel [nm] = goodName nm := rfl

mutual

theorem allFilesD_ne_nil : ∀ (d : FSDir), ∀ rel ∈ allFilesD d, rel ≠ []
  | .mk files subdirs => by
      intro rel hrel
      rw [allFilesD, List.mem_append] at hrel
      rcases hrel with h1 | h2
      · rcases List.mem_map.mp h1 with ⟨nm, _, rfl⟩
        simp
      · exact allFilesS_ne_nil subdirs rel h2

theorem allFilesS_ne_nil : ∀ (s : FSSub), ∀ rel ∈ allFilesS s, rel ≠ []
  | .nil => by intro rel hrel; rw [allFilesS] at hrel; cases hrel
  | .cons nm d rest => by
      intro rel hrel
      rw [allFilesS, List.mem_append] at hrel
      rcases hrel with h1 | h2
      · rcases List.mem_map.mp h1 with ⟨r, _, rfl⟩
        simp
      · exact allFilesS_ne_nil rest rel h2

end

mutual

theorem walkD_eq_filter : ∀ (d : FSDir), walkD d = (allFilesD d).filter goodRel
  | .mk files subdirs => by
      rw [walkD, allFilesD, List.filter_append, walkS_eq_filter subdirs,
        List.filter_map,
        show List.filter (goodRel ∘ fun nm => [nm]) files = List.filter goodName files
          from List.filter_congr (fun x _ => rfl)]

theorem walkS_eq_filter : ∀ (s : FSSub), walkS s = (allFilesS s).filter goodRel
  | .nil => by rw [walkS, allFilesS]; rfl
  | .cons nm d rest => by
      rw [walkS, allFilesS, List.filter_append, walkS_eq_filter rest,
        List.filter_map,
        show List.filter (goodRel ∘ fun rel => nm :: rel) (allFilesD d)
            = List.filter (fun rel => !strStartsWith nm "_" && goodRel rel) (allFilesD d)
          from List.filter_congr
            (fun rel hrel => goodRel_cons_of_ne_nil nm rel (allFilesD_ne_nil d rel hrel))]
      cases h : strStartsWith nm "_" with
      | true => simp [h]
      | false => simp [h, walkD_eq_filter d]

end

theorem load_cog_fail_state (env : Env) (st : LoaderState) (p : String) :
    (load_cog env st p).ok = false → (load_cog env st p).state = st := by
  unfold load_cog
  cases hact : activate env st.botExts p with
  | ok exts2 => simp
  | error e => cases e <;> simp

theorem unload_cog_fail_state (env : Env) (st : LoaderState) (p : String) :
    (unload_cog env st p).ok = false → (unload_cog env st p).state = st := by
  unfold unload_cog
  cases hact : deactivate env st.botExts p with
  | ok exts2 => simp
  | error e => cases e <;> simp

theorem load_cog_already (env : Env) (st : LoaderState) (id : String)
    (hmem : id ∈ st.botExts) :
    (load_cog env st id).ok = false ∧ (load_cog env st id).state = st := by
  unfold load_cog activate
  simp [hmem]

theorem load_cog_inv (env : Env) (st : LoaderState) (p : String) (h : Inv st) :
    Inv (load_cog env st p).state := by
  unfold load_cog activate
  by_cases hmem : p ∈ st.botExts
  · simpa [hmem] using h
  · cases hms : env.modStatus p <;> simp [hmem, hms]
    · have hp : p ∉ st.loaded_cogs := fun hmem2 => hmem (h.2 p hmem2)
      refine ⟨?_, ?_⟩
      · simp [Inv, List.nodup_append, h.1, hp]
      · intro id hid
        rcases List.mem_append.mp hid with h1 | h2
        · exact List.mem_append_left _ (h.2 id h1)
        · exact List.mem_append_right _ h2
    · exact h
    · exact h
    · exact h

theorem unload_cog_inv (env : Env) (st : LoaderState) (p : String) (h : Inv st) :
    Inv (unload_cog env st p).state := by
  unfold unload_cog deactivate
  by_cases hmem : p ∈ st.botExts
  · cases hok : env.unloadOk p with
    | false => simpa [hmem, hok] using h
    | true =>
        simp [hmem, hok]
        refine ⟨h.1.erase p, ?_⟩
        intro id hid
        have hid' := (h.1.mem_erase_iff).mp hid
        exact (List.mem_erase_of_ne hid'.1).mpr (h.2 id hid'.2)
  · simpa [hmem] using h

theorem reload_cog_inv (env : Env) (st : LoaderState) (p : String) (h : Inv st) :
    Inv (reload_cog env st p).state := by
  unfold reload_cog swap
  by_cases hmem : p ∈ st.botExts
  · cases hok : env.reloadOk p with
    | false => simpa [hmem, hok] using h
    | true => simpa [hmem, hok] using h
  · simp [hmem]
    exact load_cog_inv env st p h

theorem runBatch_inv (step : LoaderState → String → OpResult)
    (hstep : ∀ s m, Inv s → Inv (step s m).state) :
    ∀ (ms : List String) (st : LoaderState), Inv st → Inv (runBatch step st ms).2.1
  | [], _, h => h
  | m :: ms, st, h => by
      rw [runBatch]
      exact runBatch_inv step hstep ms (step st m).state (hstep st m h)

theorem load_all_cogs_inv (env : Env) (cwd rootRel : List String)
    (fs : Option FSDir) (st : LoaderState) (h : Inv st) :
    Inv (load_all_cogs env cwd rootRel fs st).state := by
  by_cases hE : (get_cog_files cwd rootRel fs).1.isEmpty = true
  · simpa [load_all_cogs, hE] using h
  · simp only [load_all_cogs, hE, if_false]
    exact runBatch_inv _ (fun s m hs => load_cog_inv env s m hs) _ st h

theorem reload_all_cogs_inv (env : Env) (st : LoaderState) (h : Inv st) :
    Inv (reload_all_cogs env st).state := by
  by_cases hE : st.loaded_cogs.isEmpty = true
  · simpa [reload_all_cogs, hE] using h
  · simp only [reload_all_cogs, hE, if_false]
    exact runBatch_inv _ (fun s m hs => reload_cog_inv env s m hs) _ st h

theorem applyOp_inv (env : Env) (cwd rootRel : List String) (fs : Option FSDir)
    (st : LoaderState) (op : AdminOp) (h : Inv st) :
    Inv (applyOp env cwd rootRel fs st op) := by
  cases op with
  | load id => exact load_cog_inv env st id h
  | unload id => exact unload_cog_inv env st id h
  | reload id => exact reload_cog_inv env st id h
  | loadAll => exact load_all_cogs_inv env cwd rootRel fs st h
  | reloadAll => exact reload_all_cogs_inv env st h

theorem runOps_inv (env : Env) (cwd rootRel : List String) (fs : Option FSDir) :
    ∀ (ops : List AdminOp) (st : LoaderState), Inv st →
      Inv (runOps env cwd rootRel fs ops st)
  | [], _, h => h
  | op :: ops, st, h => by
      rw [runOps]
      exact runOps_inv env cwd rootRel fs ops _
        (applyOp_inv env cwd rootRel fs st op h)

theorem initState_inv : Inv initState := by
  constructor
  · exact List.nodup_nil
  · intro id hid
    cases hid

theorem runBatch_map_fst (step : LoaderState → String → OpResult) :
    ∀ (ms : List String) (st : LoaderState),
      (runBatch step st ms).1.map Prod.fst = ms
  | [], _ => rfl
  | m :: ms, st => by
      rw [runBatch]
      simp [runBatch_map_fst step ms]

theorem categorize_eq : ∀ (l : List (String × Bool)),
    categorize l = ((l.filter (fun a => a.2)).map Prod.fst,
                    (l.filter (fun a => !a.2)).map Prod.fst)
  | [] => rfl
  | (m, b) :: rest => by
      rw [categorize, categorize_eq rest]
      cases b <;> simp

theorem categorize_length (l : List (String × Bool)) :
    (categorize l).1.length + (categorize l).2.length = l.length := by
  induction l with
  | nil => rfl
  | cons a rest ih =>
      obtain ⟨m, b⟩ := a
      rw [categorize]
      cases b <;> simp only [Bool.false_eq_true, if_false, if_true,
        List.length_cons] <;> omega

theorem categorize_mem_true (l : List (String × Bool)) (x : String) :
    x ∈ (categorize l).1 ↔ (x, true) ∈ l := by
  rw [categorize_eq]
  simp only [List.mem_map, List.mem_filter]
  constructor
  · rintro ⟨⟨a1, a2⟩, ⟨hl, h2⟩, h1⟩
    simp only at h1 h2
    subst h1
    cases a2
    · cases h2
    · exact hl
  · intro hmem
    exact ⟨(x, true), ⟨hmem, rfl⟩, rfl⟩

theorem categorize_mem_false (l : List (String × Bool)) (x : String) :
    x ∈ (categorize l).2 ↔ (x, false) ∈ l := by
  rw [categorize_eq]
  simp only [List.mem_map, List.mem_filter]
  constructor
  · rintro ⟨⟨a1, a2⟩, ⟨hl, h2⟩, h1⟩
    simp only at h1 h2
    subst h1
    cases a2
    · exact hl
    · cases h2
  · intro hmem
    exact ⟨(x, false), ⟨hmem, rfl⟩, rfl⟩

theorem nodup_fst_not_both (x : String) :
    ∀ (l : List (String × Bool)), (l.map Prod.fst).Nodup →
      (x, true) ∈ l → (x, false) ∈ l → False
  | [], _, h1, _ => by cases h1
  | a :: rest, hnd, h1, h2 => by
      rw [List.map_cons, List.nodup_cons] at hnd
      rcases List.mem_cons.mp h1 with heq1 | h1'
      · rcases List.mem_cons.mp h2 with heq2 | h2'
        · rw [← heq1] at heq2
          exact absurd (congrArg Prod.snd heq2) (by simp)
        · exact hnd.1 (heq1 ▸ List.mem_map.mpr ⟨(x, false), h2', rfl⟩)
      · rcases List.mem_cons.mp h2 with heq2 | h2'
        · exact hnd.1 (heq2 ▸ List.mem_map.mpr ⟨(x, true), h1', rfl⟩)
        · exact nodup_fst_not_both x rest hnd.2 h1' h2'

theorem load_all_cogs_parts (env : Env) (cwd rootRel : List String)
    (fs : Option FSDir) (st : LoaderState) :
    (load_all_cogs env cwd rootRel fs st).res.success =
        (categorize (runBatch (fun s m => load_cog env s m) st
          ((get_cog_files cwd rootRel fs).1.map (path_to_module cwd))).1).1 ∧
      (load_all_cogs env cwd rootRel fs st).res.failed =
        (categorize (runBatch (fun s m => load_cog env s m) st
          ((get_cog_files cwd rootRel fs).1.map (path_to_module cwd))).1).2 ∧
      (load_all_cogs env cwd rootRel fs st).res.total =
        (get_cog_files cwd rootRel fs).1.length := by
  by_cases hE : (get_cog_files cwd rootRel fs).1.isEmpty = true
  · have hnil : (get_cog_files cwd rootRel fs).1 = [] := List.isEmpty_iff.mp hE
    simp [load_all_cogs, hE, hnil, runBatch, categorize]
  · simp [load_all_cogs, hE]

theorem reload_all_cogs_parts (env : Env) (st : LoaderState) :
    (reload_all_cogs env st).res.success =
        (categorize (runBatch (fun s m => reload_cog env s m) st st.loaded_cogs).1).1 ∧
      (reload_all_cogs env st).res.failed =
        (categorize (runBatch (fun s m => reload_cog env s m) st st.loaded_cogs).1).2 ∧
      (reload_all_cogs env st).res.total = st.loaded_cogs.length := by
  by_cases hE : st.loaded_cogs.isEmpty = true
  · have hnil : st.loaded_cogs = [] := List.isEmpty_iff.mp hE
    simp [reload_all_cogs, hE, hnil, runBatch, categorize]
  · simp [reload_all_cogs, hE]

theorem categorize_union (l : List (String × Bool)) (x : String) :
    (x ∈ (categorize l).1 ∨ x ∈ (categorize l).2) ↔ x ∈ l.map Prod.fst := by
  rw [categorize_mem_true, categorize_mem_false]
  constructor
  · rintro (h | h)
    · exact List.mem_map.mpr ⟨(x, true), h, rfl⟩
    · exact List.mem_map.mpr ⟨(x, false), h, rfl⟩
  · intro h
    rcases List.mem_map.mp h with ⟨⟨a1, a2⟩, ha, rfl⟩
    cases a2
    · exact Or.inr ha
    · exact Or.inl ha

theorem categorize_disjoint (l : List (String × Bool))
    (hnd : (l.map Prod.fst).Nodup) (x : String) :
    ¬(x ∈ (categorize l).1 ∧ x ∈ (categorize l).2) := by
  rintro ⟨h1, h2⟩
  exact nodup_fst_not_both x l hnd
    ((categorize_mem_true l x).mp h1) ((categorize_mem_false l x).mp h2)

theorem categorize_sublist (l : List (String × Bool)) :
    (categorize l).1.Sublist (l.map Prod.fst) ∧
      (categorize l).2.Sublist (l.map Prod.fst) := by
  rw [categorize_eq]
  exact ⟨(l.filter_sublist).map Prod.fst, (l.filter_sublist).map Prod.fst⟩

theorem load_cog_fail_diag (env : Env) (st : LoaderState) (id : String) :
    (load_cog env st id).ok = false →
      hasDiagnostic (load_cog env st id).trace = true := by
  unfold load_cog
  cases hact : activate env st.botExts id with
  | ok e2 => intro h; simp at h
  | error e => intro _; cases e <;> rfl

theorem unload_cog_fail_diag (env : Env) (st : LoaderState) (id : String) :
    (unload_cog env st id).ok = false →
      hasDiagnostic (unload_cog env st id).trace = true := by
  unfold unload_cog
  cases hact : deactivate env st.botExts id with
  | ok e2 => intro h; simp at h
  | error e => intro _; cases e <;> rfl

theorem reload_cog_fail_diag (env : Env) (st : LoaderState) (id : String) :
    (reload_cog env st id).ok = false →
      hasDiagnostic (reload_cog env st id).trace = true := by
  unfold reload_cog
  cases hsw : swap env st.botExts id with
  | ok e2 => intro h; simp at h
  | error e =>
      cases e with
      | notLoaded =>
          intro h
          simp only at h ⊢
          have hld := load_cog_fail_diag env st id h
          simp only [hasDiagnostic, List.any_append, List.any_cons] at hld ⊢
          simp [hld]
      | other => intro _; rfl

theorem load_cog_err_false (env : Env) (st : LoaderState) (id : String)
    (e : LoadErr) (h : activate env st.botExts id = .error e) :
    (load_cog env st id).ok = false := by
  unfold load_cog
  rw [h]
  cases e <;> rfl

theorem unload_cog_err_false (env : Env) (st : LoaderState) (id : String)
    (e : UnloadErr) (h : deactivate env st.botExts id = .error e) :
    (unload_cog env st id).ok = false := by
  unfold unload_cog
  rw [h]
  cases e <;> rfl

theorem reload_cog_other_false (env : Env) (st : LoaderState) (id : String)
    (h : swap env st.botExts id = .error .other) :
    (reload_cog env st id).ok = false := by
  unfold reload_cog
  rw [h]

/-- C1: for every identifier and every registry state, `load_cog`,
`unload_cog` and `reload_cog` never raise: each failure of the
activation subsystem (already active, not found, missing entry point,
not active, unexpected fault) is converted into a boolean `false`
result, and every `false` result comes with a logged diagnostic. -/
theorem claim_c1_never_raises (env : Env) (st : LoaderState) (id : String) :
    ((load_cog env st id).ok = false →
      hasDiagnostic (load_cog env st id).trace = true) ∧
    ((unload_cog env st id).ok = false →
      hasDiagnostic (unload_cog env st id).trace = true) ∧
    ((reload_cog env st id).ok = false →
      hasDiagnostic (reload_cog env st id).trace = true) ∧
    (∀ e, activate env st.botExts id = .error e → (load_cog env st id).ok = false) ∧
    (∀ e, deactivate env st.botExts id = .error e → (unload_cog env st id).ok = false) ∧
    (swap env st.botExts id = .error .other → (reload_cog env st id).ok = false) :=
  ⟨load_cog_fail_diag env st id, unload_cog_fail_diag env st id,
    reload_cog_fail_diag env st id,
    fun e h => load_cog_err_false env st id e h,
    fun e h => unload_cog_err_false env st id e h,
    fun h => reload_cog_other_false env st id h⟩

theorem claim_c1_witness :
    (load_cog envMissing initState "cogs.x").ok = false ∧
    hasDiagnostic (load_cog envMissing initState "cogs.x").trace = true ∧
    (unload_cog envMissing initState "cogs.x").ok = false ∧
    (reload_cog envBroken stOne "cogs.x").ok = false := by
  refine ⟨?_, ?_, ?_, ?_⟩
  · exact (claim_c1_never_raises envMissing initState "cogs.x").2.2.2.1
      LoadErr.notFound rfl
  · exact (claim_c1_never_raises envMissing initState "cogs.x").1 (by decide)
  · exact (claim_c1_never_raises envMissing initState "cogs.x").2.2.2.2.1
      UnloadErr.notLoaded rfl
  · exact (claim_c1_never_raises envBroken stOne "cogs.x").2.2.2.2.2 rfl

/-- C2: in every registry state reachable from the initial empty
state by any sequence of load, unload, reload, load-all and
reload-all operations, `loaded_cogs` is duplicate-free, and loading
an already-recorded identifier is rejected with `false` and leaves
the state unchanged. -/
theorem claim_c2_no_duplicates (env : Env) (cwd rootRel : List String)
    (fs : Option FSDir) (ops : List AdminOp) :
    (runOps env cwd rootRel fs ops initState).loaded_cogs.Nodup ∧
    ∀ id ∈ (runOps env cwd rootRel fs ops initState).loaded_cogs,
      (load_cog env (runOps env cwd rootRel fs ops initState) id).ok = false ∧
      (load_cog env (runOps env cwd rootRel fs ops initState) id).state =
        runOps env cwd rootRel fs ops initState := by
  have hinv := runOps_inv env cwd rootRel fs ops initState initState_inv
  refine ⟨hinv.1, ?_⟩
  intro id hid
  exact load_cog_already env _ id (hinv.2 id hid)

theorem claim_c2_witness :
    "cogs.x" ∈ (runOps envAllOk cwd0 rootRel0 none
      [AdminOp.load "cogs.x"] initState).loaded_cogs ∧
    (load_cog envAllOk (runOps envAllOk cwd0 rootRel0 none
      [AdminOp.load "cogs.x"] initState) "cogs.x").ok = false := by
  refine ⟨by decide, ?_⟩
  exact ((claim_c2_no_duplicates envAllOk cwd0 rootRel0 none
    [AdminOp.load "cogs.x"]).2 "cogs.x" (by decide)).1

/-- C5: reloading an identifier that is active in the host's table
leaves `loaded_cogs` unchanged (in particular when it succeeds), and
reloading an inactive identifier behaves exactly like loading it,
returning the same boolean and producing the same state. -/
theorem claim_c5_reload_semantics (env : Env) (st : LoaderState) (id : String) :
    (id ∈ st.botExts → (reload_cog env st id).ok = true →
      (reload_cog env st id).state.loaded_cogs = st.loaded_cogs) ∧
    (id ∉ st.botExts →
      (reload_cog env st id).ok = (load_cog env st id).ok ∧
      (reload_cog env st id).state = (load_cog env st id).state) := by
  constructor
  · intro hmem _
    unfold reload_cog swap
    cases hok : env.reloadOk id <;> simp [hmem, hok]
  · intro hmem
    unfold reload_cog swap
    simp [hmem]

theorem claim_c5_witness :
    (reload_cog envAllOk stOne "cogs.x").state.loaded_cogs = stOne.loaded_cogs ∧
    (reload_cog envAllOk stOne "cogs.y").ok = (load_cog envAllOk stOne "cogs.y").ok := by
  constructor
  · exact (claim_c5_reload_semantics envAllOk stOne "cogs.x").1 (by decide) (by decide)
  · exact ((claim_c5_reload_semantics envAllOk stOne "cogs.y").2 (by decide)).1

/-- C10: whenever `load_cog` returns failure the Loaded Set is exactly
as before the call, and likewise for `unload_cog`: the append happens
only after a successful activation, the removal only after a
successful deactivation. -/
theorem claim_c10_failure_frame (env : Env) (st : LoaderState) (id : String) :
    ((load_cog env st id).ok = false →
      (load_cog env st id).state.loaded_cogs = st.loaded_cogs) ∧
    ((unload_cog env st id).ok = false →
      (unload_cog env st id).state.loaded_cogs = st.loaded_cogs) := by
  constructor
  · intro h
    rw [load_cog_fail_state env st id h]
  · intro h
    rw [unload_cog_fail_state env st id h]

theorem claim_c10_witness :
    (load_cog envMissing initState "cogs.x").ok = false ∧
    (load_cog envMissing initState "cogs.x").state.loaded_cogs =
      initState.loaded_cogs ∧
    (unload_cog envMissing initState "cogs.x").ok = false ∧
    (unload_cog envMissing initState "cogs.x").state.loaded_cogs =
      initState.loaded_cogs := by
  refine ⟨by decide, ?_, by decide, ?_⟩
  · exact (claim_c10_failure_frame envMissing initState "cogs.x").1 (by decide)
  · exact (claim_c10_failure_frame envMissing initState "cogs.x").2 (by decide)

/-- C3 counterexample: with the working directory `/home/bot` and a
cogs tree holding both the file `a.b.py` and the directory `a`
containing `b.py`, the two discovered files map to the same
identifier `cogs.a.b`; the first load succeeds and the second is
rejected as already loaded, so the identifier appears in the success
list and in the failed list of the same `load_all_cogs` invocation —
the two lists are not disjoint. -/
theorem claim_c3_counterexample :
    "cogs.a.b" ∈ (load_all_cogs envAllOk cwd0 rootRel0 (some fsColl)
      initState).res.success ∧
    "cogs.a.b" ∈ (load_all_cogs envAllOk cwd0 rootRel0 (some fsColl)
      initState).res.failed := by
  exact ⟨by decide, by decide⟩

/-- C3 (amended): for every invocation of `load_all_cogs`, `total`
equals the number of discovered files, the lengths of the success and
failed lists sum to `total`, and their union as a set is exactly the
set of attempted identifiers; the two lists are disjoint provided the
attempted identifiers are pairwise distinct (distinct discovered
files may collide on one identifier, in which case it appears in both
lists).  `reload_all_cogs` satisfies the same contract over the
snapshot of `loaded_cogs`, with disjointness provided the snapshot is
duplicate-free. -/
theorem claim_c3_aggregation (env : Env) (cwd rootRel : List String)
    (fs : Option FSDir) (st : LoaderState) :
    ((load_all_cogs env cwd rootRel fs st).res.total =
      (get_cog_files cwd rootRel fs).1.length) ∧
    ((load_all_cogs env cwd rootRel fs st).res.success.length +
        (load_all_cogs env cwd rootRel fs st).res.failed.length =
      (load_all_cogs env cwd rootRel fs st).res.total) ∧
    (((get_cog_files cwd rootRel fs).1.map (path_to_module cwd)).Nodup →
      ∀ x, ¬(x ∈ (load_all_cogs env cwd rootRel fs st).res.success ∧
             x ∈ (load_all_cogs env cwd rootRel fs st).res.failed)) ∧
    (∀ x, (x ∈ (load_all_cogs env cwd rootRel fs st).res.success ∨
           x ∈ (load_all_cogs env cwd rootRel fs st).res.failed) ↔
          x ∈ (get_cog_files cwd rootRel fs).1.map (path_to_module cwd)) ∧
    ((reload_all_cogs env st).res.total = st.loaded_cogs.length) ∧
    ((reload_all_cogs env st).res.success.length +
        (reload_all_cogs env st).res.failed.length =
      (reload_all_cogs env st).res.total) ∧
    (st.loaded_cogs.Nodup →
      ∀ x, ¬(x ∈ (reload_all_cogs env st).res.success ∧
             x ∈ (reload_all_cogs env st).res.failed)) ∧
    (∀ x, (x ∈ (reload_all_cogs env st).res.success ∨
           x ∈ (reload_all_cogs env st).res.failed) ↔
          x ∈ st.loaded_cogs) := by
  obtain ⟨hs, hf, ht⟩ := load_all_cogs_parts env cwd rootRel fs st
  obtain ⟨hs2, hf2, ht2⟩ := reload_all_cogs_parts env st
  have hfst := runBatch_map_fst (fun s m => load_cog env s m)
    ((get_cog_files cwd rootRel fs).1.map (path_to_module cwd)) st
  have hfst2 := runBatch_map_fst (fun s m => reload_cog env s m)
    st.loaded_cogs st
  refine ⟨ht, ?_, ?_, ?_, ht2, ?_, ?_, ?_⟩
  · rw [hs, hf, ht]
    have hlen := categorize_length (runBatch (fun s m => load_cog env s m) st
      ((get_cog_files cwd rootRel fs).1.map (path_to_module cwd))).1
    have hlen2 : (runBatch (fun s m => load_cog env s m) st
        ((get_cog_files cwd rootRel fs).1.map (path_to_module cwd))).1.length =
        (get_cog_files cwd rootRel fs).1.length := by
      rw [← List.length_map _ Prod.fst, hfst, List.length_map]
    omega
  · intro hnd x
    rw [hs, hf]
    exact categorize_disjoint _ (by rw [hfst]; exact hnd) x
  · intro x
    rw [hs, hf]
    have hu := categorize_union (runBatch (fun s m => load_cog env s m) st
      ((get_cog_files cwd rootRel fs).1.map (path_to_module cwd))).1 x
    rw [hfst] at hu
    exact hu
  · rw [hs2, hf2, ht2]
    have hlen := categorize_length (runBatch (fun s m => reload_cog env s m) st
      st.loaded_cogs).1
    have hlen2 : (runBatch (fun s m => reload_cog env s m) st
        st.loaded_cogs).1.length = st.loaded_cogs.length := by
      rw [← List.length_map _ Prod.fst, hfst2]
    omega
  · intro hnd x
    rw [hs2, hf2]
    exact categorize_disjoint _ (by rw [hfst2]; exact hnd) x
  · intro x
    rw [hs2, hf2]
    have hu := categorize_union (runBatch (fun s m => reload_cog env s m) st
      st.loaded_cogs).1 x
    rw [hfst2] at hu
    exact hu

theorem claim_c3_witness :
    (load_all_cogs envAllOk cwd0 rootRel0 (some fsTwo) initState).res.total = 2 ∧
    ¬("cogs.a" ∈ (load_all_cogs envAllOk cwd0 rootRel0 (some fsTwo)
        initState).res.success ∧
      "cogs.a" ∈ (load_all_cogs envAllOk cwd0 rootRel0 (some fsTwo)
        initState).res.failed) ∧
    ¬("cogs.x" ∈ (reload_all_cogs envAllOk stOne).res.success ∧
      "cogs.x" ∈ (reload_all_cogs envAllOk stOne).res.failed) := by
  refine ⟨?_, ?_, ?_⟩
  · have := (claim_c3_aggregation envAllOk cwd0 rootRel0 (some fsTwo) initState).1
    rw [this]; decide
  · exact (claim_c3_aggregation envAllOk cwd0 rootRel0 (some fsTwo)
      initState).2.2.1 (by decide) "cogs.a"
  · exact (claim_c3_aggregation envAllOk cwd0 rootRel0 (some fsTwo)
      stOne).2.2.2.2.2.2.1 (by decide) "cogs.x"

/-- C4: the success and failed sequences of both bulk operations are
subsequences of the dispatch list (the identifiers in the order they
were enumerated for dispatch), and each is exactly the dispatch-order
filtering of the per-item outcome pairs — the aggregate result is a
deterministic function of the dispatch order and the per-item
outcomes, not of completion order. -/
theorem claim_c4_dispatch_order (env : Env) (cwd rootRel : List String)
    (fs : Option FSDir) (st : LoaderState) :
    ((load_all_cogs env cwd rootRel fs st).res.success.Sublist
      ((get_cog_files cwd rootRel fs).1.map (path_to_module cwd))) ∧
    ((load_all_cogs env cwd rootRel fs st).res.failed.Sublist
      ((get_cog_files cwd rootRel fs).1.map (path_to_module cwd))) ∧
    ((load_all_cogs env cwd rootRel fs st).res.success =
      ((runBatch (fun s m => load_cog env s m) st
        ((get_cog_files cwd rootRel fs).1.map (path_to_module cwd))).1.filter
          (fun a => a.2)).map Prod.fst) ∧
    ((load_all_cogs env cwd rootRel fs st).res.failed =
      ((runBatch (fun s m => load_cog env s m) st
        ((get_cog_files cwd rootRel fs).1.map (path_to_module cwd))).1.filter
          (fun a => !a.2)).map Prod.fst) ∧
    ((reload_all_cogs env st).res.success.Sublist st.loaded_cogs) ∧
    ((reload_all_cogs env st).res.failed.Sublist st.loaded_cogs) ∧
    ((reload_all_cogs env st).res.success =
      ((runBatch (fun s m => reload_cog env s m) st st.loaded_cogs).1.filter
        (fun a => a.2)).map Prod.fst) ∧
    ((reload_all_cogs env st).res.failed =
      ((runBatch (fun s m => reload_cog env s m) st st.loaded_cogs).1.filter
        (fun a => !a.2)).map Prod.fst) := by
  obtain ⟨hs, hf, _⟩ := load_all_cogs_parts env cwd rootRel fs st
  obtain ⟨hs2, hf2, _⟩ := reload_all_cogs_parts env st
  have hsub := categorize_sublist (runBatch (fun s m => load_cog env s m) st
    ((get_cog_files cwd rootRel fs).1.map (path_to_module cwd))).1
  have hsub2 := categorize_sublist (runBatch (fun s m => reload_cog env s m) st
    st.loaded_cogs).1
  have hfst := runBatch_map_fst (fun s m => load_cog env s m)
    ((get_cog_files cwd rootRel fs).1.map (path_to_module cwd)) st
  have hfst2 := runBatch_map_fst (fun s m => reload_cog env s m)
    st.loaded_cogs st
  refine ⟨?_, ?_, ?_, ?_, ?_, ?_, ?_, ?_⟩
  · rw [hs]
    have h1 := hsub.1
    rw [hfst] at h1
    exact h1
  · rw [hf]
    have h1 := hsub.2
    rw [hfst] at h1
    exact h1
  · rw [hs, categorize_eq]
  · rw [hf, categorize_eq]
  · rw [hs2]
    have h1 := hsub2.1
    rw [hfst2] at h1
    exact h1
  · rw [hf2]
    have h1 := hsub2.2
    rw [hfst2] at h1
    exact h1
  · rw [hs2, categorize_eq]
  · rw [hf2, categorize_eq]

/-- C6: when discovery finds no extension files, `load_all_cogs`
returns the empty aggregate with `total = 0`, leaves the state
unchanged, and makes no call into the activation subsystem; when the
Loaded Set is empty, `reload_all_cogs` does the same. -/
theorem claim_c6_empty_bulk (env : Env) (cwd rootRel : List String)
    (fs : Option FSDir) (st : LoaderState) :
    ((get_cog_files cwd rootRel fs).1 = [] →
      (load_all_cogs env cwd rootRel fs st).res =
        { success := [], failed := [], total := 0 } ∧
      (load_all_cogs env cwd rootRel fs st).state = st ∧
      noHostCalls (load_all_cogs env cwd rootRel fs st).trace = true) ∧
    (st.loaded_cogs = [] →
      (reload_all_cogs env st).res =
        { success := [], failed := [], total := 0 } ∧
      (reload_all_cogs env st).state = st ∧
      noHostCalls (reload_all_cogs env st).trace = true) := by
  constructor
  · intro h
    have hE : (get_cog_files cwd rootRel fs).1.isEmpty = true := by simp [h]
    refine ⟨?_, ?_, ?_⟩
    · simp [load_all_cogs, hE, h]
    · simp [load_all_cogs, hE]
    · cases fs with
      | none => simp [load_all_cogs, hE, get_cog_files, noHostCalls]
      | some d =>
          have hw : walkD d = [] := by
            have h2 := h
            simp [get_cog_files] at h2
            exact h2
          simp [load_all_cogs, get_cog_files, hw, noHostCalls]
  · intro h
    have hE : st.loaded_cogs.isEmpty = true := by simp [h]
    refine ⟨?_, ?_, ?_⟩
    · simp [reload_all_cogs, hE, h]
    · simp [reload_all_cogs, hE]
    · simp [reload_all_cogs, hE, noHostCalls]

theorem claim_c6_witness :
    (load_all_cogs envAllOk cwd0 rootRel0 none initState).res =
      { success := [], failed := [], total := 0 } ∧
    noHostCalls (load_all_cogs envAllOk cwd0 rootRel0 none initState).trace = true ∧
    (reload_all_cogs envAllOk initState).res =
      { success := [], failed := [], total := 0 } ∧
    noHostCalls (reload_all_cogs envAllOk initState).trace = true := by
  refine ⟨?_, ?_, ?_, ?_⟩
  · exact ((claim_c6_empty_bulk envAllOk cwd0 rootRel0 none initState).1 rfl).1
  · exact ((claim_c6_empty_bulk envAllOk cwd0 rootRel0 none initState).1 rfl).2.2
  · exact ((claim_c6_empty_bulk envAllOk cwd0 rootRel0 none initState).2 rfl).1
  · exact ((claim_c6_empty_bulk envAllOk cwd0 rootRel0 none initState).2 rfl).2.2

/-- C7: discovery of a missing root yields no files and a logged
warning; discovery over an existing tree yields exactly the paths
`cwd ++ rootRel ++ rel` (absolute, anchored at the working directory)
for the files `rel` of the tree whose final component has the
recognized suffix and does not start with the reserved marker and
none of whose directory components starts with the marker. -/
theorem claim_c7_discovery (cwd rootRel : List String) :
    ((get_cog_files cwd rootRel none).1 = [] ∧
      hasWarningEvent (get_cog_files cwd rootRel none).2 = true) ∧
    ∀ (d : FSDir) (p : List String),
      p ∈ (get_cog_files cwd rootRel (some d)).1 ↔
        ∃ rel, rel ∈ allFilesD d ∧ goodRel rel = true ∧
          p = cwd ++ rootRel ++ rel := by
  constructor
  · exact ⟨rfl, rfl⟩
  · intro d p
    simp only [get_cog_files, walkD_eq_filter, List.mem_map, List.mem_filter]
    constructor
    · rintro ⟨rel, ⟨hall, hgood⟩, rfl⟩
      exact ⟨rel, hall, hgood, rfl⟩
    · rintro ⟨rel, hall, hgood, rfl⟩
      exact ⟨rel, ⟨hall, hgood⟩, rfl⟩

/-- C8: the path-to-identifier mapping agrees with the mapping the
spec describes (relative to the working directory with a fallback to
the full path, suffix stripped, components joined with the dot
delimiter), and it is a deterministic function of the path: equal
paths always yield equal identifiers. -/
theorem claim_c8_path_mapping (cwd p : List String) :
    path_to_module cwd p = path_to_module_spec cwd p ∧
    ∀ q, q = p → path_to_module cwd q = path_to_module cwd p := by
  constructor
  · unfold path_to_module path_to_module_spec
    by_cases h : cwd.isPrefixOf p <;> simp [h]
  · intro q hq
    rw [hq]

theorem claim_c8_witness :
    path_to_module cwd0 ["", "home", "bot", "cogs", "admin.py"] =
      path_to_module_spec cwd0 ["", "home", "bot", "cogs", "admin.py"] ∧
    path_to_module cwd0 ["", "home", "bot", "cogs", "admin.py"] =
      path_to_module cwd0 ["", "home", "bot", "cogs", "admin.py"] ∧
    path_to_module cwd0 ["", "home", "bot", "cogs", "admin.py"] = "cogs.admin" := by
  refine ⟨(claim_c8_path_mapping cwd0 _).1,
    (claim_c8_path_mapping cwd0 ["", "home", "bot", "cogs", "admin.py"]).2 _ rfl,
    by decide⟩

/-- C9: `get_loaded_cogs` returns a fresh copy of the Loaded Set, not
the live internal list: the reference it returns is a new cell whose
contents equal the Loaded Set, and a caller mutating that cell leaves
the registry's own cell — and therefore the behaviour of every
subsequent operation reading it — unchanged. -/
theorem claim_c9_get_loaded_copy (h : ListHeap) (selfRef : Nat)
    (v : List String) (hlt : selfRef < h.cells.length) :
    (get_loaded_cogs_ref h selfRef).2 ≠ selfRef ∧
    readCell (get_loaded_cogs_ref h selfRef).1 (get_loaded_cogs_ref h selfRef).2 =
      readCell h selfRef ∧
    readCell (writeCell (get_loaded_cogs_ref h selfRef).1
      (get_loaded_cogs_ref h selfRef).2 v) selfRef = readCell h selfRef ∧
    ∀ (env : Env) (exts : List String) (id : String),
      load_cog env
        { botExts := exts,
          loaded_cogs := readCell (writeCell (get_loaded_cogs_ref h selfRef).1
            (get_loaded_cogs_ref h selfRef).2 v) selfRef } id =
      load_cog env { botExts := exts, loaded_cogs := readCell h selfRef } id := by
  have hne : h.cells.length ≠ selfRef := Nat.ne_of_gt hlt
  have hread : readCell (get_loaded_cogs_ref h selfRef).1
      (get_loaded_cogs_ref h selfRef).2 = readCell h selfRef := by
    simp [get_loaded_cogs_ref, listCopy, readCell, writeCell, List.getD]
  have hframe : readCell (writeCell (get_loaded_cogs_ref h selfRef).1
      (get_loaded_cogs_ref h selfRef).2 v) selfRef = readCell h selfRef := by
    simp only [get_loaded_cogs_ref, listCopy, readCell, writeCell, List.getD,
      List.get?_eq_getElem?]
    rw [List.getElem?_set_ne hne, List.getElem?_append_left hlt]
  refine ⟨hne, hread, hframe, ?_⟩
  intro env exts id
  rw [hframe]

theorem claim_c9_witness :
    (get_loaded_cogs_ref { cells := [["cogs.a"]] } 0).2 ≠ 0 ∧
    readCell (writeCell (get_loaded_cogs_ref { cells := [["cogs.a"]] } 0).1
      (get_loaded_cogs_ref { cells := [["cogs.a"]] } 0).2 ["mutated"]) 0 =
      readCell { cells := [["cogs.a"]] } 0 := by
  have h := claim_c9_get_loaded_copy { cells := [["cogs.a"]] } 0 ["mutated"]
    (by decide)
  exact ⟨h.1, h.2.2.1⟩

end Suginami
